import Mathlib

/-!
Verification development for the AntigravityMobile bridge.

The repository consists of a CDP (Chrome DevTools Protocol) client
(src/cdp-client.mjs) and an HTTP/WebSocket bridge server.  This file
shallowly embeds the pure decision logic of those modules:

* `findEditorTarget` — target resolution (cdp-client.mjs lines 32-44);
* the request/response correlation state machine used by
  `connectToTarget` and by the per-operation `call` helpers
  (cdp-client.mjs lines 53-88, 666-691, 816-840, 1108-1132, 1277-1301);
* the model-candidate matching loop of `setModel`
  (cdp-client.mjs lines 943-1008) and the no-match branches of
  `setModel` / `setMode`;
* the workspace-path inference of `getWorkspacePath`
  (cdp-client.mjs lines 619-642);
* the model/mode scan of `getModelAndMode` (cdp-client.mjs lines 699-765);
* the workspace reconciliation poll (server, `startWorkspacePolling`);
* the debounced file watcher (server, `startWatching`);
* the bounded message store (server, `saveMessages`).

JavaScript strings are modelled as Lean `String`s over their character
lists; the DOM and the network are modelled as explicit inputs
(candidate text lists, event traces).
-/

/-! ## String helpers mirroring the JavaScript primitives used by the source -/

/-- ASCII lower-casing of one character, as JavaScript `toLowerCase` acts on
the ASCII range (all strings compared by the source are ASCII). -/
def lowerChar (c : Char) : Char :=
  if 'A' ≤ c ∧ c ≤ 'Z' then Char.ofNat (c.toNat + 32) else c

/-- JavaScript `s.toLowerCase()` on ASCII strings. -/
def strLower (s : String) : String :=
  String.mk (s.toList.map lowerChar)

/-- Characters removed by JavaScript `trim` (the source only meets ASCII
whitespace). -/
def isWsChar (c : Char) : Bool :=
  c = ' ' || c = '\t' || c = '\n' || c = '\r'

/-- JavaScript `s.trim()`. -/
def strTrim (s : String) : String :=
  String.mk (((s.toList.dropWhile isWsChar).reverse.dropWhile isWsChar).reverse)

/-- Substring test on character lists: JavaScript `hay.includes(needle)`. -/
def subList (needle : List Char) : List Char → Bool
  | [] => needle.isEmpty
  | c :: rest => needle.isPrefixOf (c :: rest) || subList needle rest

/-- JavaScript `hay.includes(needle)`. -/
def strContainsStr (hay needle : String) : Bool :=
  subList needle.toList hay.toList

/-- JavaScript `s.substring(0, n)` (equivalently `slice(0, n)`). -/
def strTake (s : String) (n : Nat) : String :=
  String.mk (s.toList.take n)

/-- Maximal runs of characters satisfying `p`; empty pieces are dropped.
This is JavaScript `s.split(sep-regex).filter(Boolean)` where the regex
matches nonempty runs of characters violating `p`. -/
def splitRunsGo (p : Char → Bool) : List Char → List Char → List (List Char)
  | [], acc => if acc.isEmpty then [] else [acc.reverse]
  | c :: rest, acc =>
      if p c then splitRunsGo p rest (c :: acc)
      else if acc.isEmpty then splitRunsGo p rest []
      else acc.reverse :: splitRunsGo p rest []

def splitRuns (p : Char → Bool) (s : String) : List String :=
  (splitRunsGo p s.toList []).map String.mk

/-- ASCII alphanumeric test, the complement of the JavaScript separator
regex `[^a-z0-9]+` with the `i` flag. -/
def isAlnumChar (c : Char) : Bool :=
  ('a' ≤ c && c ≤ 'z') || ('0' ≤ c && c ≤ '9') || ('A' ≤ c && c ≤ 'Z')

/-! ## Target resolution — cdp-client.mjs, `findEditorTarget` (lines 32-44) -/

/-- A CDP target as listed by the `/json/list` endpoint (only the fields
read by `findEditorTarget`). -/
structure CdpTarget where
  type : String
  title : String
  url : String
deriving Repr, DecidableEq

/-- The predicate of the preferred `targets.find` call: a page-typed target
whose title contains "Antigravity", does not contain "Launchpad", and whose
URL does not contain "devtools". -/
def isPreferredEditor (t : CdpTarget) : Bool :=
  t.type == "page" && strContainsStr t.title "Antigravity" &&
    !strContainsStr t.title "Launchpad" && !strContainsStr t.url "devtools"

/-- A page-typed target, the fallback `targets.find` predicate. -/
def isPageTarget (t : CdpTarget) : Bool :=
  t.type == "page"

/-- `findEditorTarget` of cdp-client.mjs: `editor || targets.find(page)`,
where an absent result is JavaScript `undefined`, modelled as `none`. -/
def findEditorTarget (ts : List CdpTarget) : Option CdpTarget :=
  match ts.find? isPreferredEditor with
  | some t => some t
  | none => ts.find? isPageTarget

/-! ## Bounded message store — server, `saveMessages` (part_000 lines 288-293) -/

/-- The truncation in `saveMessages`: JavaScript
`if (messages.length > 500) messages = messages.slice(-500)`;
`slice(-500)` keeps the most recent 500 entries. -/
def truncMessages {M : Type} (ms : List M) : List M :=
  if ms.length > 500 then ms.drop (ms.length - 500) else ms

/-- `saveMessages`: truncates the in-memory store, then persists it.
The first component is the in-memory store after the call, the second the
content written to the messages file. -/
def saveMessages {M : Type} (ms : List M) : List M × List M :=
  let k := truncMessages ms
  (k, k)

/-! ## Workspace reconciliation poll — server, `startWorkspacePolling`
(part_000 lines 144-198) -/

/-- The mutable workspace state of the server: `workspacePath`,
`lastValidWorkspacePath` and `consecutiveFailures`. -/
structure WorkspaceState where
  workspacePath : String
  lastValidWorkspacePath : Option String
  consecutiveFailures : Nat
deriving Repr, DecidableEq

/-- JavaScript `detectedPath.replace(/\\\\/g, ...)`: every occurrence of two
consecutive backslashes is replaced by a single one, scanning left to right. -/
def collapseBackslashes : List Char → List Char
  | [] => []
  | '\\' :: '\\' :: rest => '\\' :: collapseBackslashes rest
  | c :: rest => c :: collapseBackslashes rest

def normalizeDetected (s : String) : String :=
  String.mk (collapseBackslashes s.toList)

/-- `pathEquals` of the server: case-insensitive on Windows, exact
comparison otherwise. -/
def pathEquals (isWin : Bool) (a b : String) : Bool :=
  if isWin then strLower a == strLower b else a == b

/-- Events broadcast by the poll callback. -/
inductive PollEvent where
  | workspaceChanged (path : String)
deriving Repr, DecidableEq

/-- One execution of the `poll` callback.  The input `det` is the value
produced by `CDP.getWorkspacePath()`: `none` covers both a null detection
and a thrown error (both branches only increment `consecutiveFailures`
and leave the paths untouched; the logging is cosmetic).  On `some raw`,
the counter is reset, the path is normalized, `lastValidWorkspacePath` is
set, and `workspace_changed` is broadcast exactly when the normalized
path is not `pathEquals` to the current one. -/
def pollStep (isWin : Bool) (s : WorkspaceState) (det : Option String) :
    WorkspaceState × List PollEvent :=
  match det with
  | none => ({ s with consecutiveFailures := s.consecutiveFailures + 1 }, [])
  | some raw =>
      let p := normalizeDetected raw
      let s1 : WorkspaceState :=
        { s with consecutiveFailures := 0, lastValidWorkspacePath := some p }
      if pathEquals isWin p s.workspacePath then (s1, [])
      else ({ s1 with workspacePath := p }, [PollEvent.workspaceChanged p])

/-- Several consecutive poll cycles, accumulating the broadcast events. -/
def pollRun (isWin : Bool) (s : WorkspaceState) : List (Option String) →
    WorkspaceState × List PollEvent
  | [] => (s, [])
  | det :: rest =>
      let (s1, evs) := pollStep isWin s det
      let (s2, evs2) := pollRun isWin s1 rest
      (s2, evs ++ evs2)

/-! ## Debounced file watcher — server, `startWatching` (part_000 lines 230-257)

Each raw OS event clears any pending 300ms timer and starts a fresh one;
`file_changed` is broadcast when a timer expires.  Time is modelled in
milliseconds; the input is the nondecreasing list of raw event arrival
times, the output the list of broadcast times.  An event arriving at time
`u` cancels the timer armed at time `t` exactly when `u < t + 300`
(otherwise the timer has already fired). -/

def debounceTimes : Nat → List Nat → List Nat
  | cur, [] => [cur + 300]
  | cur, u :: rest =>
      if u < cur + 300 then debounceTimes u rest
      else (cur + 300) :: debounceTimes u rest

/-- Broadcast times of `file_changed` for a given list of raw event times. -/
def debounceRun : List Nat → List Nat
  | [] => []
  | t :: rest => debounceTimes t rest

/-! ## Request/response correlation — cdp-client.mjs

`connectToTarget` (lines 53-88) and the per-operation `call` helpers of
`getModelAndMode` (666-691), `setModel` (816-840), `setMode` (1108-1132),
`getPendingApprovals` (1277-1301) and `respondToApproval` (1407-1431) all
maintain `let messageId = 1` and a `pending` map.  A send assigns
`messageId++` and registers the id; an inbound frame whose id is in the
map removes it and resolves or rejects; a frame with an unknown id is
ignored.  The `call` helpers additionally arm a timeout that, on firing,
removes the id and rejects if it is still pending; the `client.send` of
`connectToTarget` arms no timeout.  A socket error rejects or resolves the
enclosing operation promise but touches neither `pending` nor any
outstanding call. -/

/-- The outcome a registered request id can receive. -/
inductive Outcome where
  | result
  | errorMsg (m : String)
  | timeout
deriving Repr, DecidableEq

/-- Correlation bookkeeping state of one connection.  `closed` records
whether the socket has been torn down. -/
structure ClientState where
  messageId : Nat
  pending : List Nat
  outcomes : List (Nat × Outcome)
  closed : Bool
deriving Repr, DecidableEq

/-- Initial state on socket open: `messageId = 1`, no pending requests. -/
def initClient : ClientState :=
  { messageId := 1, pending := [], outcomes := [], closed := false }

/-- Events acting on a connection. -/
inductive ClientEv where
  | send
  | recvResult (id : Nat)
  | recvError (id : Nat) (m : String)
  | timerFire (id : Nat)
  | connFail
  | closeConn
deriving Repr, DecidableEq

/-- One event of the correlation machine.  `recvResult` and `recvError`
model an inbound `{id, result}` / `{id, error}` frame: if the id is
pending it is removed and the outcome recorded, otherwise the frame is
ignored.  `timerFire` is the body of the `setTimeout` callback of a
`call` helper: only if the id is still pending is it removed and the
promise rejected with a timeout; the socket is not closed.  `connFail`
is `ws.on(..error..)`: it settles the enclosing operation but does not
touch `pending` and records no outcome for any pending id. -/
def clientStep (s : ClientState) : ClientEv → ClientState
  | ClientEv.send =>
      { s with messageId := s.messageId + 1, pending := s.pending ++ [s.messageId] }
  | ClientEv.recvResult id =>
      if s.pending.contains id then
        { s with pending := s.pending.erase id,
                 outcomes := s.outcomes ++ [(id, Outcome.result)] }
      else s
  | ClientEv.recvError id m =>
      if s.pending.contains id then
        { s with pending := s.pending.erase id,
                 outcomes := s.outcomes ++ [(id, Outcome.errorMsg m)] }
      else s
  | ClientEv.timerFire id =>
      if s.pending.contains id then
        { s with pending := s.pending.erase id,
                 outcomes := s.outcomes ++ [(id, Outcome.timeout)] }
      else s
  | ClientEv.connFail => { s with closed := true }
  | ClientEv.closeConn => { s with closed := true }

/-- Running a trace of events from a state. -/
def runClient (s : ClientState) (tr : List ClientEv) : ClientState :=
  tr.foldl clientStep s

/-- Number of sends in a trace. -/
def sendCount (tr : List ClientEv) : Nat :=
  tr.countP (fun e => match e with | ClientEv.send => true | _ => false)

/-- How many times request id `id` has been issued so far (0 or 1):
ids handed out are exactly `1, ..., messageId - 1`. -/
def issuedCount (s : ClientState) (id : Nat) : Nat :=
  if 1 ≤ id ∧ id < s.messageId then 1 else 0

/-- The correlation invariant: every issued id is accounted for exactly
once, either still pending or with exactly one recorded outcome. -/
def ClientInv (s : ClientState) : Prop :=
  1 ≤ s.messageId ∧
    ∀ id : Nat, s.pending.count id + (s.outcomes.map Prod.fst).count id =
      issuedCount s id

/-! ## Per-operation call timeouts — cdp-client.mjs

The `setTimeout` deadline of the `call` helper of each operation, read off the
source: `getModelAndMode` 3000 (line 676), `setModel` 5000 (line 825),
`setMode` 5000 (line 1117), `getPendingApprovals` 5000 (line 1286),
`respondToApproval` 5000 (line 1416). -/

inductive CdpOp where
  | getModelAndMode
  | setModel
  | setMode
  | getPendingApprovals
  | respondToApproval
deriving Repr, DecidableEq

def callTimeoutMs : CdpOp → Nat
  | CdpOp.getModelAndMode => 3000
  | CdpOp.setModel => 5000
  | CdpOp.setMode => 5000
  | CdpOp.getPendingApprovals => 5000
  | CdpOp.respondToApproval => 5000

/-! ## Model candidate matching — cdp-client.mjs, `setModel` SCRIPT
(lines 943-1008)

`getNorm` lower-cases and trims the text of a candidate; the requested name is
lower-cased.  `targetParts` is the requested name split on runs of
non-alphanumerics, keeping tokens of length > 1.  The loop walks the
candidates in discovery order: an exact match or an all-tokens match sets
`bestMatch` and breaks; a relaxed match (first token contained, and at
least half of the remaining tokens contained) sets `bestMatch` and
continues, so a later relaxed match overwrites an earlier one. -/

/-- `getNorm` of the SCRIPTs: trim then lower-case. -/
def candNorm (t : String) : String :=
  strLower (strTrim t)

/-- `targetModel.split(..non-alphanumerics..).filter(p.length > 1)`. -/
def tokenizeTarget (tm : String) : List String :=
  (splitRuns isAlnumChar tm).filter (fun p => p.length > 1)

/-- `targetParts.every(part included in candText)`. -/
def allPartsOK (parts : List String) (cand : String) : Bool :=
  parts.all (fun p => strContainsStr cand p)

/-- The relaxed tier: at least two tokens, the first (family) token
contained, and `matchCount >= (targetParts.length - 1) / 2` over the
remaining tokens (real division in JavaScript, so `2 * matchCount ≥
parts.length - 1`). -/
def relaxedOK (parts : List String) (cand : String) : Bool :=
  match parts with
  | [] => false
  | p0 :: rest =>
      decide (parts.length ≥ 2) && strContainsStr cand p0 &&
        decide (2 * rest.countP (fun p => strContainsStr cand p) ≥ parts.length - 1)

/-- The candidate loop of `setModel`, over (index, normalized text) pairs,
carrying the current `bestMatch`. -/
def matchLoopGo (tm : String) (parts : List String) :
    List (Nat × String) → Option Nat → Option Nat
  | [], best => best
  | (i, c) :: rest, best =>
      if c == tm then some i
      else if allPartsOK parts c then some i
      else if relaxedOK parts c then matchLoopGo tm parts rest (some i)
      else matchLoopGo tm parts rest best

/-- Index of the candidate `setModel` clicks, given the requested model
name and the discovered candidate texts in order (`none` when the
no-match branch is taken). -/
def setModelSelect (modelName : String) (cands : List String) : Option Nat :=
  let tm := strLower modelName
  matchLoopGo tm (tokenizeTarget tm) (cands.map candNorm).enum none

/-- The selection rule as the specification words it: the first candidate
meeting the highest satisfied tier wins, tiers being exact equality, then
all tokens contained, then the relaxed rule.  Modelled from the spec for
comparison with `setModelSelect`. -/
def specTierSelect (modelName : String) (cands : List String) : Option Nat :=
  let tm := strLower modelName
  let parts := tokenizeTarget tm
  let l := (cands.map candNorm).enum
  match l.find? (fun p => p.2 == tm) with
  | some p => some p.1
  | none =>
      match l.find? (fun p => allPartsOK parts p.2) with
      | some p => some p.1
      | none => (l.find? (fun p => relaxedOK parts p.2)).map Prod.fst

/-- First candidate matching exactly or containing all tokens (these two
checks break the loop). -/
def firstStrong (tm : String) (parts : List String) (l : List (Nat × String)) :
    Option Nat :=
  (l.find? (fun p => p.2 == tm || allPartsOK parts p.2)).map Prod.fst

/-- Last candidate satisfying the relaxed rule (a relaxed match does not
break the loop, so a later one overwrites an earlier one). -/
def lastRelaxed (parts : List String) (l : List (Nat × String)) : Option Nat :=
  ((l.filter (fun p => relaxedOK parts p.2)).getLast?).map Prod.fst

/-! ## Set-result shapes — `setModel` (lines 991-1008) and `setMode`
(lines 1199-1225) -/

/-- The object literal resolved by the dropdown phase of the SCRIPTs
(fields absent in JavaScript are `none`). -/
structure SetResult where
  found : Bool
  success : Bool
  error : Option String
  selected : Option String
  candidatesFound : Option (List String)
  allTexts : Option (List String)
deriving Repr, DecidableEq

/-- DOM actions performed by the dropdown phase. -/
inductive UIAction where
  | clickCandidate (idx : Nat)
  | dispatchEscape
deriving Repr, DecidableEq

/-- The dropdown phase of `setModel` after candidate collection: run the
matching loop; on a match, scroll and click the candidate and resolve
success with its raw text; otherwise dispatch Escape on the body and
resolve the failure literal of line 1008, which carries only an error
string. -/
def setModelDropdown (modelName : String) (cands : List String) :
    List UIAction × SetResult :=
  match setModelSelect modelName cands with
  | some i =>
      ([UIAction.clickCandidate i],
        { found := true, success := true, error := none,
          selected := some (cands.getD i ""), candidatesFound := none,
          allTexts := none })
  | none =>
      ([UIAction.dispatchEscape],
        { found := true, success := false,
          error := some "Model option not found", selected := none,
          candidatesFound := none, allTexts := none })

/-- Candidate collection of `setMode` (lines 1182-1194) over the raw
cursor-pointer element texts: normalized texts of length in (1, 150) are
kept as `allTexts` entries truncated to 60 characters, and become
candidates when they contain a mode keyword or are shorter than 30
characters.  Candidates are kept as (raw, normalized) pairs. -/
def modeKeywordIn (t : String) : Bool :=
  strContainsStr t "planning" || strContainsStr t "fast"

def setModeCollect : List String → List String × List (String × String)
  | [] => ([], [])
  | raw :: rest =>
      let (allT, cands) := setModeCollect rest
      let t := candNorm raw
      if 1 < t.length ∧ t.length < 150 then
        if modeKeywordIn t || t.length < 30 then
          (strTake t 60 :: allT, (raw, t) :: cands)
        else (strTake t 60 :: allT, cands)
      else (allT, cands)

/-- The dropdown phase of `setMode` (lines 1199-1225): the first candidate
whose normalized text contains the lower-cased requested mode is clicked;
otherwise Escape is dispatched and the failure literal of line 1225 is
resolved, carrying the rejected candidate texts (truncated to 50) and the
first 10 of `allTexts`. -/
def setModeDropdown (modeName : String) (raws : List String) :
    List UIAction × SetResult :=
  let allT := (setModeCollect raws).1
  let cands := (setModeCollect raws).2
  let tm := strLower modeName
  match cands.findIdx? (fun p => strContainsStr p.2 tm) with
  | some i =>
      ([UIAction.clickCandidate i],
        { found := true, success := true, error := none,
          selected := some ((cands.getD i ("", "")).1), candidatesFound := none,
          allTexts := none })
  | none =>
      ([UIAction.dispatchEscape],
        { found := true, success := false,
          error := some "Mode option not found", selected := none,
          candidatesFound := some (cands.map (fun p => strTake p.2 50)),
          allTexts := some (allT.take 10) })

/-! ## Workspace path inference — cdp-client.mjs, `getWorkspacePath`
(lines 619-642)

After the DOM script has produced a file path and its platform flag, the
path is split on separator runs (`[\\/]+` on Windows, `/+` otherwise,
empty pieces filtered).  If a project anchor was parsed from the window
title, the first segment equal to it case-insensitively ends the
workspace root; otherwise the parent directory of the path is taken. -/

/-- `filePath.split(sep).filter(Boolean)`. -/
def splitPath (isWin : Bool) (fp : String) : List String :=
  splitRuns (fun c => if isWin then !(c = '\\' || c = '/') else c ≠ '/') fp

/-- Reassembly of segments: `parts[0] + single-backslash + rest joined with
backslashes` on Windows, `/` followed by the segments joined with `/`
otherwise (lines 627-629 and 638-640). -/
def joinSegs (isWin : Bool) (segs : List String) : String :=
  if isWin then segs.headD "" ++ "\\" ++ String.intercalate "\\" segs.tail
  else "/" ++ String.intercalate "/" segs

/-- The anchor loop (lines 625-633): walk the segments, and on the first
one case-insensitively equal to the project name return the prefix up to
and including it. -/
def anchorScan (pn : String) (acc : List String) : List String → Option (List String)
  | [] => none
  | s :: rest =>
      if strLower s == strLower pn then some (s :: acc).reverse
      else anchorScan pn (s :: acc) rest

/-- The reconstruction step of `getWorkspacePath`, given the platform flag, the
project anchor parsed from the title (when present) and the detected file
path. -/
def inferWorkspace (isWin : Bool) (projectName : Option String) (fp : String) :
    String :=
  let parts := splitPath isWin fp
  match projectName with
  | some pn =>
      match anchorScan pn [] parts with
      | some pref => joinSegs isWin pref
      | none => joinSegs isWin parts.dropLast
  | none => joinSegs isWin parts.dropLast

/-! ## Model/mode reading — cdp-client.mjs, `getModelAndMode`
(lines 699-765)

Per execution context, the SCRIPT walks the element texts in DOM order:
trimmed texts of length in [4, 50] are tested; the first one starting
with a vendor name and containing a variant keyword becomes `model`, the
first one exactly equal (case-insensitively) to `planning` or `fast`
becomes `mode`; the walk stops once both are set.  The outer loop takes
the first context whose scan produced a model; if none does, the default
literal of line 755 is resolved. -/

def lenOK (t : String) : Bool :=
  decide (4 ≤ t.length) && decide (t.length ≤ 50)

/-- JavaScript regex anchor `^pat`: the pattern is a prefix of the text. -/
def strStarts (s pre : String) : Bool :=
  pre.toList.isPrefixOf s.toList

def modelVendorStart (t : String) : Bool :=
  ["claude", "gemini", "gpt"].any (fun k => strStarts (strLower t) k)

def modelVariantIn (t : String) : Bool :=
  ["opus", "sonnet", "flash", "pro", "thinking", "high", "low", "medium"].any
    (fun k => strContainsStr (strLower t) k)

/-- The model pattern of line 715: a vendor-initial text containing a
variant keyword, within the length window. -/
def isModelText (t : String) : Bool :=
  lenOK t && modelVendorStart t && modelVariantIn t

/-- The mode enum of line 722, within the length window. -/
def isModeText (t : String) : Bool :=
  lenOK t && (strLower t == "planning" || strLower t == "fast")

/-- The per-context scan loop over element texts, carrying the model and
mode found so far. -/
def scanMMGo : List String → Option String → Option String →
    Option String × Option String
  | [], m, d => (m, d)
  | t :: rest, m, d =>
      let tt := strTrim t
      let m1 := if m.isNone && isModelText tt then some tt else m
      let d1 := if d.isNone && isModeText tt then some tt else d
      if m1.isSome && d1.isSome then (m1, d1) else scanMMGo rest m1 d1

/-- The SCRIPT result of one context: the model and mode fields of line 729
(`null` modelled as `none`). -/
def scanModelMode (texts : List String) : Option String × Option String :=
  scanMMGo texts none none

/-- The value `getModelAndMode` resolves with. -/
structure MMResult where
  model : Option String
  mode : Option String
deriving Repr, DecidableEq

/-- The cross-context loop (lines 737-755): each context is a list of
element texts; the first context whose scan yields a model wins wholesale
(a per-context evaluation error counts as no model); exhausting the
contexts resolves the default literal. -/
def gmmGo : List (List String) → MMResult
  | [] => { model := some "Unknown", mode := some "Planning" }
  | ctx :: rest =>
      if (scanModelMode ctx).1.isSome then
        { model := (scanModelMode ctx).1, mode := (scanModelMode ctx).2 }
      else gmmGo rest

def getModelAndMode (ctxs : List (List String)) : MMResult :=
  gmmGo ctxs

/-! ## Helper lemmas -/

theorem find?_eq_head?_filter {α : Type} (p : α → Bool) (l : List α) :
    l.find? p = (l.filter p).head? := by
  induction l with
  | nil => rfl
  | cons a t ih =>
    cases h : p a
    · rw [List.find?_cons_of_neg _ (by simp [h]), List.filter_cons_of_neg (by simp [h])]
      exact ih
    · rw [List.find?_cons_of_pos _ h, List.filter_cons_of_pos h]
      rfl

theorem preferred_isPage (t : CdpTarget) (h : isPreferredEditor t = true) :
    isPageTarget t = true := by
  unfold isPreferredEditor at h
  unfold isPageTarget
  simp only [Bool.and_eq_true] at h
  exact h.1.1.1

/-! ## C5 — target resolution -/

/-- C5: the resolver returns the first page-typed target whose title
contains "Antigravity", excludes "Launchpad" and whose URL excludes
"devtools"; failing that, the first page-typed target; failing that,
none (and none exactly when no page-typed target exists).  On the list
page "Foo - Bar - x.ts", page "Launchpad - Bar", devtools it
deterministically returns the first entry. -/
theorem findEditorTarget_resolution :
    (∀ ts : List CdpTarget,
        findEditorTarget ts =
          match (ts.filter isPreferredEditor).head? with
          | some t => some t
          | none => (ts.filter isPageTarget).head?) ∧
    findEditorTarget
        [⟨"page", "Foo - Bar - x.ts", "https://a"⟩,
         ⟨"page", "Launchpad - Bar", "https://b"⟩,
         ⟨"devtools", "DevTools", "devtools://inspector"⟩] =
      some ⟨"page", "Foo - Bar - x.ts", "https://a"⟩ ∧
    (∀ ts : List CdpTarget, findEditorTarget ts = none ↔ ts.find? isPageTarget = none) := by
  refine ⟨?_, rfl, ?_⟩
  · intro ts
    simp only [findEditorTarget, find?_eq_head?_filter]
  · intro ts
    unfold findEditorTarget
    cases h : ts.find? isPreferredEditor with
    | none => simp
    | some t =>
      simp only [reduceCtorEq, false_iff]
      intro hp
      have ht := List.find?_some h
      have hmem := List.mem_of_find?_eq_some h
      rw [List.find?_eq_none] at hp
      exact hp t hmem (preferred_isPage t ht)

/-! ## C10 — bounded message store -/

/-- C10: after every `saveMessages` the in-memory store holds at most 500
messages; when it held more beforehand it is truncated to the most recent
500 first; the persisted content equals the truncated store, hence never
exceeds 500 entries. -/
theorem saveMessages_bound (M : Type) (ms : List M) :
    (saveMessages ms).1.length ≤ 500 ∧
    (saveMessages ms).2 = (saveMessages ms).1 ∧
    (ms.length > 500 → (saveMessages ms).1 = ms.drop (ms.length - 500)) := by
  refine ⟨?_, rfl, ?_⟩
  · unfold saveMessages truncMessages
    by_cases h : ms.length > 500
    · simp only [h, if_true, List.length_drop]
      omega
    · simp only [h, if_false]
      omega
  · intro h
    unfold saveMessages truncMessages
    simp [h]

theorem saveMessages_bound_witness :
    (saveMessages (List.replicate 501 (0 : Nat))).1 =
      (List.replicate 501 (0 : Nat)).drop ((List.replicate 501 (0 : Nat)).length - 500) :=
  (saveMessages_bound Nat (List.replicate 501 0)).2.2
    (by rw [List.length_replicate]; omega)

/-! ## C1 — workspace reconciliation poll -/

/-- C1: a cycle with no detection (or an error) increments the failure
counter and leaves both the current and the last-known-good path
untouched; three consecutive null polls leave the current path unchanged
with the counter raised by three and no event; a following success resets
the counter to 0 and emits exactly one `workspace_changed` event if and
only if the (normalized) detected path is not `pathEquals` to the current
one. -/
theorem workspacePoll_reconciliation :
    (∀ (isWin : Bool) (s : WorkspaceState),
        pollStep isWin s none =
          ({ s with consecutiveFailures := s.consecutiveFailures + 1 }, [])) ∧
    (∀ (isWin : Bool) (s : WorkspaceState),
        (pollRun isWin s [none, none, none]).1.workspacePath = s.workspacePath ∧
        (pollRun isWin s [none, none, none]).1.lastValidWorkspacePath =
          s.lastValidWorkspacePath ∧
        (pollRun isWin s [none, none, none]).1.consecutiveFailures =
          s.consecutiveFailures + 3 ∧
        (pollRun isWin s [none, none, none]).2 = []) ∧
    (∀ (isWin : Bool) (s : WorkspaceState) (raw : String),
        (pollStep isWin s (some raw)).1.consecutiveFailures = 0 ∧
        ((pollStep isWin s (some raw)).2 =
            [PollEvent.workspaceChanged (normalizeDetected raw)] ↔
          pathEquals isWin (normalizeDetected raw) s.workspacePath = false) ∧
        ((pollStep isWin s (some raw)).2 = [] ↔
          pathEquals isWin (normalizeDetected raw) s.workspacePath = true)) := by
  refine ⟨fun isWin s => rfl, ?_, ?_⟩
  · intro isWin s
    simp [pollRun, pollStep]
  · intro isWin s raw
    unfold pollStep
    by_cases hq : pathEquals isWin (normalizeDetected raw) s.workspacePath
    · simp [hq]
    · simp [hq]

/-! ## C8 — debounced file watcher -/

theorem debounceTimes_burst (rest : List Nat) :
    ∀ cur : Nat, List.Chain (fun a b => b < a + 300) cur rest →
      debounceTimes cur rest = [rest.getLastD cur + 300] := by
  induction rest with
  | nil => intro cur _; rfl
  | cons u rest2 ih =>
    intro cur h
    rcases List.chain_cons.mp h with ⟨hlt, hc⟩
    unfold debounceTimes
    rw [if_pos hlt, ih u hc, List.getLastD_cons]

theorem mem_debounceTimes (rest : List Nat) :
    ∀ cur x, x ∈ debounceTimes cur rest → ∃ e, (e = cur ∨ e ∈ rest) ∧ x = e + 300 := by
  induction rest with
  | nil =>
    intro cur x hx
    simp only [debounceTimes, List.mem_singleton] at hx
    exact ⟨cur, Or.inl rfl, hx⟩
  | cons u rest2 ih =>
    intro cur x hx
    unfold debounceTimes at hx
    by_cases hlt : u < cur + 300
    · rw [if_pos hlt] at hx
      rcases ih u x hx with ⟨e, he, hxe⟩
      refine ⟨e, ?_, hxe⟩
      rcases he with he | he
      · exact Or.inr (he ▸ List.mem_cons_self u rest2)
      · exact Or.inr (List.mem_cons_of_mem u he)
    · rw [if_neg hlt] at hx
      rcases List.mem_cons.mp hx with hx | hx
      · exact ⟨cur, Or.inl rfl, hx⟩
      · rcases ih u x hx with ⟨e, he, hxe⟩
        refine ⟨e, ?_, hxe⟩
        rcases he with he | he
        · exact Or.inr (he ▸ List.mem_cons_self u rest2)
        · exact Or.inr (List.mem_cons_of_mem u he)

/-- C8: a burst of raw events in which each event arrives within 300ms of
the previous one yields exactly one `file_changed` broadcast, 300ms after
the last event of the burst; every broadcast happens exactly 300ms after
some raw event; and the concrete five-event burst 0, 100, 200, 290, 380
yields the single broadcast at 680. -/
theorem watcher_debounce :
    (∀ (t : Nat) (rest : List Nat),
        List.Chain (fun a b => b < a + 300) t rest →
          debounceRun (t :: rest) = [rest.getLastD t + 300]) ∧
    (∀ (t : Nat) (rest : List Nat) (x : Nat), x ∈ debounceRun (t :: rest) →
        ∃ e, (e = t ∨ e ∈ rest) ∧ x = e + 300) ∧
    debounceRun [0, 100, 200, 290, 380] = [680] := by
  refine ⟨?_, ?_, by decide⟩
  · intro t rest h
    exact debounceTimes_burst rest t h
  · intro t rest x hx
    exact mem_debounceTimes rest t x hx

theorem watcher_debounce_witness :
    debounceRun [5, 100, 200, 290, 380] = [List.getLastD [100, 200, 290, 380] 5 + 300] :=
  watcher_debounce.1 5 [100, 200, 290, 380]
    (List.Chain.cons (by decide) (List.Chain.cons (by decide)
      (List.Chain.cons (by decide) (List.Chain.cons (by decide) List.Chain.nil))))

/-! ## C2 / C7 — correlation machine lemmas -/

theorem clientInv_init : ClientInv initClient := by
  refine ⟨le_refl 1, ?_⟩
  intro id
  simp only [initClient, issuedCount, List.count_nil, List.map_nil]
  split_ifs <;> omega

/-- Removing a pending id and recording an outcome for it preserves the
correlation invariant. -/
theorem clientInv_settle (s : ClientState) (j : Nat) (o : Outcome)
    (hc : s.pending.contains j = true) (h : ClientInv s) :
    ClientInv { s with pending := s.pending.erase j,
                       outcomes := s.outcomes ++ [(j, o)] } := by
  obtain ⟨h1, h2⟩ := h
  refine ⟨h1, ?_⟩
  intro id
  have hid := h2 id
  have hj : 0 < s.pending.count j := List.count_pos_iff.mpr (by simpa using hc)
  unfold issuedCount at hid ⊢
  simp only [List.map_append, List.count_append, List.map_cons, List.map_nil,
    List.count_singleton, List.count_erase, beq_iff_eq]
  by_cases hji : j = id
  · subst hji
    simp only [if_pos rfl]
    split_ifs at hid ⊢ <;> omega
  · simp only [if_neg hji]
    split_ifs at hid ⊢ <;> omega

theorem clientStep_recvResult (s : ClientState) (j : Nat)
    (hc : s.pending.contains j = true) :
    clientStep s (ClientEv.recvResult j) =
      { s with pending := s.pending.erase j,
               outcomes := s.outcomes ++ [(j, Outcome.result)] } := by
  have hm : j ∈ s.pending := by simpa using hc
  simp [clientStep, hm]

theorem clientStep_recvError (s : ClientState) (j : Nat) (m : String)
    (hc : s.pending.contains j = true) :
    clientStep s (ClientEv.recvError j m) =
      { s with pending := s.pending.erase j,
               outcomes := s.outcomes ++ [(j, Outcome.errorMsg m)] } := by
  have hm : j ∈ s.pending := by simpa using hc
  simp [clientStep, hm]

theorem clientStep_timerFire (s : ClientState) (j : Nat)
    (hc : s.pending.contains j = true) :
    clientStep s (ClientEv.timerFire j) =
      { s with pending := s.pending.erase j,
               outcomes := s.outcomes ++ [(j, Outcome.timeout)] } := by
  have hm : j ∈ s.pending := by simpa using hc
  simp [clientStep, hm]

theorem clientInv_step (s : ClientState) (e : ClientEv) (h : ClientInv s) :
    ClientInv (clientStep s e) := by
  obtain ⟨h1, h2⟩ := h
  cases e with
  | send =>
    refine ⟨by simp only [clientStep]; omega, ?_⟩
    intro id
    have hid := h2 id
    unfold issuedCount at hid ⊢
    simp only [clientStep, List.count_append, List.count_singleton, beq_iff_eq]
    by_cases he : s.messageId = id
    · subst he
      simp only [if_pos rfl]
      split_ifs at hid ⊢ <;> omega
    · simp only [if_neg he]
      split_ifs at hid ⊢ <;> omega
  | recvResult j =>
    by_cases hc : s.pending.contains j = true
    · rw [clientStep_recvResult s j hc]
      exact clientInv_settle s j Outcome.result hc ⟨h1, h2⟩
    · have hm : j ∉ s.pending := by simpa using hc
      have hs : clientStep s (ClientEv.recvResult j) = s := by simp [clientStep, hm]
      rw [hs]; exact ⟨h1, h2⟩
  | recvError j m =>
    by_cases hc : s.pending.contains j = true
    · rw [clientStep_recvError s j m hc]
      exact clientInv_settle s j (Outcome.errorMsg m) hc ⟨h1, h2⟩
    · have hm : j ∉ s.pending := by simpa using hc
      have hs : clientStep s (ClientEv.recvError j m) = s := by simp [clientStep, hm]
      rw [hs]; exact ⟨h1, h2⟩
  | timerFire j =>
    by_cases hc : s.pending.contains j = true
    · rw [clientStep_timerFire s j hc]
      exact clientInv_settle s j Outcome.timeout hc ⟨h1, h2⟩
    · have hm : j ∉ s.pending := by simpa using hc
      have hs : clientStep s (ClientEv.timerFire j) = s := by simp [clientStep, hm]
      rw [hs]; exact ⟨h1, h2⟩
  | connFail => exact ⟨h1, h2⟩
  | closeConn => exact ⟨h1, h2⟩

theorem clientInv_run (tr : List ClientEv) :
    ∀ s : ClientState, ClientInv s → ClientInv (runClient s tr) := by
  induction tr with
  | nil => intro s h; exact h
  | cons e tr ih => intro s h; exact ih (clientStep s e) (clientInv_step s e h)

/-- Whether an event is an outbound `client.send` / `call`. -/
def isSendEv : ClientEv → Bool
  | ClientEv.send => true
  | _ => false

theorem sendCount_eq_countP (tr : List ClientEv) :
    sendCount tr = tr.countP isSendEv := rfl

theorem clientStep_messageId (s : ClientState) (e : ClientEv) :
    (clientStep s e).messageId = s.messageId + (if isSendEv e then 1 else 0) := by
  cases e <;> simp only [clientStep, isSendEv] <;> first | (split <;> rfl) | rfl

theorem runClient_messageId (tr : List ClientEv) :
    ∀ s : ClientState, (runClient s tr).messageId = s.messageId + sendCount tr := by
  induction tr with
  | nil => intro s; simp [runClient, sendCount]
  | cons e tr ih =>
    intro s
    have h : runClient s (e :: tr) = runClient (clientStep s e) tr := rfl
    rw [h, ih (clientStep s e), clientStep_messageId, sendCount_eq_countP,
      sendCount_eq_countP, List.countP_cons]
    cases he : isSendEv e <;> simp [he] <;> omega

theorem clientStep_timerFire_closed (s : ClientState) (j : Nat) :
    (clientStep s (ClientEv.timerFire j)).closed = s.closed := by
  simp only [clientStep]
  split <;> rfl

theorem fire_settles (l : List Nat) :
    ∀ s : ClientState, s.pending = l → ClientInv s →
      (runClient s (l.map ClientEv.timerFire)).pending = [] ∧
      ClientInv (runClient s (l.map ClientEv.timerFire)) ∧
      (runClient s (l.map ClientEv.timerFire)).messageId = s.messageId := by
  induction l with
  | nil => intro s hp hinv; exact ⟨hp, hinv, rfl⟩
  | cons j rest ih =>
    intro s hp hinv
    have hc : s.pending.contains j = true := by rw [hp]; simp
    have hstep := clientStep_timerFire s j hc
    have hp2 : (clientStep s (ClientEv.timerFire j)).pending = rest := by
      rw [hstep]
      simp only [hp, List.erase_cons_head]
    have hinv2 := clientInv_step s (ClientEv.timerFire j) hinv
    have hrec := ih (clientStep s (ClientEv.timerFire j)) hp2 hinv2
    refine ⟨hrec.1, hrec.2.1, ?_⟩
    have hm : (clientStep s (ClientEv.timerFire j)).messageId = s.messageId := by
      rw [hstep]
    calc (runClient (clientStep s (ClientEv.timerFire j))
            (rest.map ClientEv.timerFire)).messageId
        = (clientStep s (ClientEv.timerFire j)).messageId := hrec.2.2
      _ = s.messageId := hm

/-! ## C2 — request id correlation -/

/-- C2 counterexample: in the `connectToTarget` client, `client.send` arms
no timeout, and a socket failure (`ws.on` error, which only rejects the
enclosing promise) neither rejects nor removes pending calls.  After one
send followed by a connection failure, the issued request id 1 is still
pending with an empty outcome list — a complete execution in which an
issued id has received zero outcomes, refuting "every issued request id
receives exactly one outcome". -/
theorem connectToTarget_zero_outcome_cex :
    runClient initClient [ClientEv.send, ClientEv.connFail] =
      { messageId := 2, pending := [1], outcomes := [], closed := true } ∧
    (runClient initClient [ClientEv.send, ClientEv.connFail]).outcomes = [] := by
  exact ⟨rfl, rfl⟩

/-- C2 amended: for every connection, request ids start at 1 and are
assigned consecutively (the send after a trace with k sends gets id
1 + k, so ids are strictly increasing); an inbound response whose id is
not pending is ignored; every issued id receives at most one outcome; and
for the timed `call` helpers — where every send arms a timeout that
eventually fires — once the timers of all still-pending ids fire, every
issued id has received exactly one outcome (result, in-band error, or
timeout rejection).  In the plain `connectToTarget` client a call whose
response never arrives receives no outcome; connection failure rejects no
pending call. -/
theorem callCorrelation_amended :
    (∀ tr : List ClientEv, (runClient initClient tr).messageId = 1 + sendCount tr) ∧
    (∀ tr : List ClientEv,
        (clientStep (runClient initClient tr) ClientEv.send).pending =
          (runClient initClient tr).pending ++ [1 + sendCount tr]) ∧
    (∀ (s : ClientState) (id : Nat) (m : String), s.pending.contains id = false →
        clientStep s (ClientEv.recvResult id) = s ∧
        clientStep s (ClientEv.recvError id m) = s) ∧
    (∀ (tr : List ClientEv) (id : Nat),
        ((runClient initClient tr).outcomes.map Prod.fst).count id ≤ 1) ∧
    (∀ tr : List ClientEv,
        (runClient (runClient initClient tr)
            ((runClient initClient tr).pending.map ClientEv.timerFire)).pending = [] ∧
        ∀ id : Nat, 1 ≤ id → id < (runClient initClient tr).messageId →
          ((runClient (runClient initClient tr)
              ((runClient initClient tr).pending.map ClientEv.timerFire)).outcomes.map
                Prod.fst).count id = 1) := by
  refine ⟨?_, ?_, ?_, ?_, ?_⟩
  · intro tr
    rw [runClient_messageId tr initClient]
    rfl
  · intro tr
    have h : (clientStep (runClient initClient tr) ClientEv.send).pending =
        (runClient initClient tr).pending ++ [(runClient initClient tr).messageId] := rfl
    rw [h, runClient_messageId tr initClient]
    rfl
  · intro s id m hc
    have hm : id ∉ s.pending := by simpa using hc
    constructor <;> simp [clientStep, hm]
  · intro tr id
    have hinv := clientInv_run tr initClient clientInv_init
    have h2 := hinv.2 id
    unfold issuedCount at h2
    split_ifs at h2 <;> omega
  · intro tr
    have hinv := clientInv_run tr initClient clientInv_init
    have hs := fire_settles (runClient initClient tr).pending
      (runClient initClient tr) rfl hinv
    refine ⟨hs.1, ?_⟩
    intro id h1 h2
    have hinv2 := hs.2.1
    have hcount := hinv2.2 id
    rw [hs.1] at hcount
    unfold issuedCount at hcount
    rw [hs.2.2] at hcount
    simp only [List.count_nil] at hcount
    have : 1 ≤ id ∧ id < (runClient initClient tr).messageId := ⟨h1, h2⟩
    rw [if_pos this] at hcount
    omega

theorem callCorrelation_amended_witness :
    clientStep { messageId := 5, pending := [2], outcomes := [], closed := false }
        (ClientEv.recvResult 1) =
      { messageId := 5, pending := [2], outcomes := [], closed := false } ∧
    ((runClient (runClient initClient [ClientEv.send])
        ((runClient initClient [ClientEv.send]).pending.map ClientEv.timerFire)).outcomes.map
          Prod.fst).count 1 = 1 :=
  ⟨(callCorrelation_amended.2.2.1
      { messageId := 5, pending := [2], outcomes := [], closed := false } 1 "x"
      (by decide)).1,
   (callCorrelation_amended.2.2.2.2 [ClientEv.send]).2 1 (by decide) (by decide)⟩

/-! ## C7 — per-operation call timeouts -/

/-- C7 counterexample: the claim assigns the read query
`getPendingApprovals` a ~3 second deadline, but its `call` helper
(cdp-client.mjs line 1286) arms the timeout with 5000ms. -/
theorem getPendingApprovals_timeout_cex :
    callTimeoutMs CdpOp.getPendingApprovals = 5000 ∧
    callTimeoutMs CdpOp.getPendingApprovals ≠ 3000 := by
  exact ⟨rfl, by decide⟩

/-- C7 amended: `getModelAndMode` times out after 3000ms while `setModel`,
`setMode`, `respondToApproval` and also the read query
`getPendingApprovals` time out after 5000ms; a firing timeout removes the
id of the call from the pending map and rejects that call with a timeout
outcome, and never tears down the connection (the `closed` flag is
untouched). -/
theorem callTimeouts_amended :
    callTimeoutMs CdpOp.getModelAndMode = 3000 ∧
    callTimeoutMs CdpOp.setModel = 5000 ∧
    callTimeoutMs CdpOp.setMode = 5000 ∧
    callTimeoutMs CdpOp.getPendingApprovals = 5000 ∧
    callTimeoutMs CdpOp.respondToApproval = 5000 ∧
    (∀ (s : ClientState) (id : Nat),
        (clientStep s (ClientEv.timerFire id)).closed = s.closed) ∧
    (∀ (s : ClientState) (id : Nat), s.pending.contains id = true →
        clientStep s (ClientEv.timerFire id) =
          { s with pending := s.pending.erase id,
                   outcomes := s.outcomes ++ [(id, Outcome.timeout)] }) :=
  ⟨rfl, rfl, rfl, rfl, rfl, clientStep_timerFire_closed,
   fun s id hc => clientStep_timerFire s id hc⟩

theorem callTimeouts_amended_witness :
    clientStep { messageId := 2, pending := [1], outcomes := [], closed := false }
        (ClientEv.timerFire 1) =
      { messageId := 2, pending := [], outcomes := [(1, Outcome.timeout)],
        closed := false } :=
  callTimeouts_amended.2.2.2.2.2.2
    { messageId := 2, pending := [1], outcomes := [], closed := false } 1 (by decide)

/-! ## C3 — model candidate matching -/

theorem getLast?_cons_eq {β : Type} (a : β) (l : List β) :
    (a :: l).getLast? = match l.getLast? with
      | some x => some x
      | none => some a := by
  induction l generalizing a with
  | nil => rfl
  | cons b t ih =>
    rw [List.getLast?_cons_cons, ih b]
    cases h : t.getLast? <;> simp [ih]

theorem lastRelaxed_cons (parts : List String) (i : Nat) (c : String)
    (rest : List (Nat × String)) :
    lastRelaxed parts ((i, c) :: rest) =
      if relaxedOK parts c then
        match lastRelaxed parts rest with
        | some j => some j
        | none => some i
      else lastRelaxed parts rest := by
  unfold lastRelaxed
  by_cases hr : relaxedOK parts c
  · rw [List.filter_cons_of_pos (by simpa using hr), if_pos hr, getLast?_cons_eq]
    cases h : (rest.filter (fun p => relaxedOK parts p.2)).getLast? <;> simp [h]
  · rw [List.filter_cons_of_neg (by simpa using hr), if_neg hr]

theorem matchLoopGo_eq (tm : String) (parts : List String) :
    ∀ (l : List (Nat × String)) (best : Option Nat),
      matchLoopGo tm parts l best =
        match firstStrong tm parts l with
        | some i => some i
        | none =>
            match lastRelaxed parts l with
            | some j => some j
            | none => best := by
  intro l
  induction l with
  | nil => intro best; simp [matchLoopGo, firstStrong, lastRelaxed]
  | cons hd rest ih =>
    obtain ⟨i, c⟩ := hd
    intro best
    by_cases hexact : (c == tm) = true
    · have hfs : firstStrong tm parts ((i, c) :: rest) = some i := by
        unfold firstStrong
        rw [List.find?_cons_of_pos _ (by simp [hexact])]
        rfl
      simp only [matchLoopGo, if_pos hexact, hfs]
    · by_cases hall : allPartsOK parts c = true
      · have hfs : firstStrong tm parts ((i, c) :: rest) = some i := by
          unfold firstStrong
          rw [List.find?_cons_of_pos _ (by simp [hall])]
          rfl
        simp only [matchLoopGo, hexact, if_false, if_pos hall, hfs]
        simp
      · have hfs : firstStrong tm parts ((i, c) :: rest) = firstStrong tm parts rest := by
          unfold firstStrong
          rw [List.find?_cons_of_neg _ (by simp [hexact, hall])]
        rw [lastRelaxed_cons] at *
        by_cases hr : relaxedOK parts c = true
        · simp only [matchLoopGo, hexact, hall, if_false, if_pos hr, hfs,
            lastRelaxed_cons, ih (some i)]
          cases firstStrong tm parts rest <;>
            cases lastRelaxed parts rest <;> simp [hr]
        · simp only [matchLoopGo, hexact, hall, hr, if_false, hfs,
            lastRelaxed_cons, ih best]
          cases firstStrong tm parts rest <;>
            cases lastRelaxed parts rest <;> simp [hr]

/-- C3 counterexample: requesting "claude sonnet" against the candidates
"Claude Opus Sonnet X", "Claude Sonnet" — the second candidate is an
exact match (the highest tier), yet the code selects the first candidate,
because the loop checks exact and all-tokens per candidate in discovery
order and the first candidate already satisfies the all-tokens tier.
`specTierSelect`, modelled from the tiered precedence of the spec, picks
index 1; the code (`setModelSelect`) picks index 0. -/
theorem setModel_tier_cex :
    setModelSelect "claude sonnet" ["Claude Opus Sonnet X", "Claude Sonnet"] = some 0 ∧
    specTierSelect "claude sonnet" ["Claude Opus Sonnet X", "Claude Sonnet"] = some 1 ∧
    candNorm "Claude Sonnet" = strLower "claude sonnet" :=
  ⟨rfl, rfl, rfl⟩

/-- C3 amended: the loop walks candidates in discovery order; the first
candidate that matches exactly or contains every token wins immediately
(these two checks are tried candidate-by-candidate, so an earlier
all-tokens match beats a later exact match); when no candidate does, the
last — not the first — candidate satisfying the relaxed rule wins.  The
specific example holds: "Claude Sonnet 4.5" against
["Claude Sonnet 4.5 (Thinking)", "Gemini 3 Pro (High)"] selects the
first candidate via the all-tokens check, not the exact-match check. -/
theorem setModel_matching_amended :
    (∀ (modelName : String) (cands : List String),
        setModelSelect modelName cands =
          match firstStrong (strLower modelName)
              (tokenizeTarget (strLower modelName)) ((cands.map candNorm).enum) with
          | some i => some i
          | none =>
              lastRelaxed (tokenizeTarget (strLower modelName))
                ((cands.map candNorm).enum)) ∧
    setModelSelect "Claude Sonnet 4.5"
        ["Claude Sonnet 4.5 (Thinking)", "Gemini 3 Pro (High)"] = some 0 ∧
    allPartsOK (tokenizeTarget (strLower "Claude Sonnet 4.5"))
        (candNorm "Claude Sonnet 4.5 (Thinking)") = true ∧
    (candNorm "Claude Sonnet 4.5 (Thinking)" == strLower "Claude Sonnet 4.5") = false := by
  refine ⟨?_, rfl, rfl, rfl⟩
  intro modelName cands
  unfold setModelSelect
  rw [matchLoopGo_eq]
  cases firstStrong (strLower modelName) (tokenizeTarget (strLower modelName))
      ((cands.map candNorm).enum) <;>
    cases h : lastRelaxed (tokenizeTarget (strLower modelName))
      ((cands.map candNorm).enum) <;> simp [h]

/-! ## C9 — no-match branches of the setters -/

/-- C9 counterexample: `setModel` with no matching candidate dispatches
Escape but resolves the literal of cdp-client.mjs line 1008, which carries
no candidate list — `candidatesFound` is absent — even though a candidate
("Gemini 3 Pro (High)") was rejected; only `setMode` includes the rejected
candidates. -/
theorem setModel_candidates_cex :
    (setModelDropdown "Claude Zeta 9" ["Gemini 3 Pro (High)"]).2.success = false ∧
    (setModelDropdown "Claude Zeta 9" ["Gemini 3 Pro (High)"]).1 =
      [UIAction.dispatchEscape] ∧
    (setModelDropdown "Claude Zeta 9" ["Gemini 3 Pro (High)"]).2.candidatesFound =
      none :=
  ⟨rfl, rfl, rfl⟩

/-- C9 amended: on no match both setters dispatch Escape and report
failure, but only `setMode` includes the rejected-candidate list (and the
first ten collected texts) in its failure result; `setModel` reports only
the error string "Model option not found" with no candidate list. -/
theorem setNoMatch_amended :
    (∀ (modelName : String) (cands : List String),
        setModelSelect modelName cands = none →
          setModelDropdown modelName cands =
            ([UIAction.dispatchEscape],
              { found := true, success := false,
                error := some "Model option not found", selected := none,
                candidatesFound := none, allTexts := none })) ∧
    (∀ (modeName : String) (raws : List String),
        (setModeCollect raws).2.findIdx?
            (fun p => strContainsStr p.2 (strLower modeName)) = none →
          setModeDropdown modeName raws =
            ([UIAction.dispatchEscape],
              { found := true, success := false,
                error := some "Mode option not found", selected := none,
                candidatesFound :=
                  some ((setModeCollect raws).2.map (fun p => strTake p.2 50)),
                allTexts := some ((setModeCollect raws).1.take 10) })) := by
  constructor
  · intro modelName cands h
    unfold setModelDropdown
    rw [h]
  · intro modeName raws h
    simp only [setModeDropdown, h]

theorem setNoMatch_amended_witness :
    setModeDropdown "Turbo" ["Planning mode", "Fast"] =
      ([UIAction.dispatchEscape],
        { found := true, success := false,
          error := some "Mode option not found", selected := none,
          candidatesFound :=
            some ((setModeCollect ["Planning mode", "Fast"]).2.map
              (fun p => strTake p.2 50)),
          allTexts := some ((setModeCollect ["Planning mode", "Fast"]).1.take 10) }) :=
  setNoMatch_amended.2 "Turbo" ["Planning mode", "Fast"] rfl

/-! ## C4 — workspace path inference -/

theorem anchorScan_found (pn s : String) (hs : (strLower s == strLower pn) = true) :
    ∀ (l1 : List String) (l2 : List String) (acc : List String),
      (∀ x ∈ l1, (strLower x == strLower pn) = false) →
      anchorScan pn acc (l1 ++ s :: l2) = some (acc.reverse ++ l1 ++ [s]) := by
  intro l1
  induction l1 with
  | nil =>
    intro l2 acc _
    simp [anchorScan, hs]
  | cons a t ih =>
    intro l2 acc hall
    have ha := hall a (List.mem_cons_self a t)
    have hrest : ∀ x ∈ t, (strLower x == strLower pn) = false :=
      fun x hx => hall x (List.mem_cons_of_mem a hx)
    simp only [List.cons_append, anchorScan, ha, Bool.false_eq_true, if_false,
      List.append_eq]
    rw [ih l2 (a :: acc) hrest]
    simp

theorem anchorScan_none (pn : String) :
    ∀ (l : List String) (acc : List String),
      (∀ x ∈ l, (strLower x == strLower pn) = false) →
      anchorScan pn acc l = none := by
  intro l
  induction l with
  | nil => intro acc _; rfl
  | cons a t ih =>
    intro acc hall
    have ha := hall a (List.mem_cons_self a t)
    simp only [anchorScan, ha, Bool.false_eq_true, if_false]
    exact ih (a :: acc) fun x hx => hall x (List.mem_cons_of_mem a hx)

/-- C4: the inferencer truncates the split path at the first segment
case-insensitively equal to the project anchor (keeping everything up to
and including it) and falls back to the parent directory when no segment
matches; the tab-label example "C:\Users\a\Projects\Demo\src\index.ts"
with anchor "Demo" yields "C:\Users\a\Projects\Demo", and with a
non-matching anchor yields "C:\Users\a\Projects\Demo\src". -/
theorem inferWorkspace_spec :
    (∀ (isWin : Bool) (pn fp : String) (l1 l2 : List String) (s : String),
        splitPath isWin fp = l1 ++ s :: l2 →
        (strLower s == strLower pn) = true →
        (∀ x ∈ l1, (strLower x == strLower pn) = false) →
        inferWorkspace isWin (some pn) fp = joinSegs isWin (l1 ++ [s])) ∧
    (∀ (isWin : Bool) (pn fp : String),
        (∀ x ∈ splitPath isWin fp, (strLower x == strLower pn) = false) →
        inferWorkspace isWin (some pn) fp =
          joinSegs isWin (splitPath isWin fp).dropLast) ∧
    inferWorkspace true (some "Demo") "C:\\Users\\a\\Projects\\Demo\\src\\index.ts" =
      "C:\\Users\\a\\Projects\\Demo" ∧
    inferWorkspace true (some "Zed") "C:\\Users\\a\\Projects\\Demo\\src\\index.ts" =
      "C:\\Users\\a\\Projects\\Demo\\src" := by
  refine ⟨?_, ?_, rfl, rfl⟩
  · intro isWin pn fp l1 l2 s hsplit hs hall
    have hks := anchorScan_found pn s hs l1 l2 [] hall
    simp only [inferWorkspace, hsplit, hks]
    simp
  · intro isWin pn fp hall
    have hnone := anchorScan_none pn (splitPath isWin fp) [] hall
    simp only [inferWorkspace, hnone]

theorem inferWorkspace_spec_witness :
    inferWorkspace true (some "demo") "C:\\Users\\a\\Projects\\Demo\\src\\index.ts" =
      joinSegs true (["C:", "Users", "a", "Projects"] ++ ["Demo"]) :=
  inferWorkspace_spec.1 true "demo" "C:\\Users\\a\\Projects\\Demo\\src\\index.ts"
    ["C:", "Users", "a", "Projects"] ["src", "index.ts"] "Demo" rfl rfl (by decide)

/-! ## C6 — model/mode reading -/

theorem scanMMGo_eq (l : List String) :
    ∀ m d : Option String,
      scanMMGo l m d =
        ((match m with
          | some x => some x
          | none => (l.map strTrim).find? isModelText),
         (match d with
          | some x => some x
          | none => (l.map strTrim).find? isModeText)) := by
  induction l with
  | nil =>
    intro m d
    cases m <;> cases d <;> simp [scanMMGo]
  | cons t rest ih =>
    intro m d
    simp only [scanMMGo, List.map_cons]
    cases m <;> cases d <;>
      by_cases hm : isModelText (strTrim t) <;>
      by_cases hd : isModeText (strTrim t) <;>
        simp [hm, hd, ih, List.find?_cons]

/-- C6 counterexample: with a single context in which neither the model
pattern nor the mode enum matches any text, `getModelAndMode` resolves
the default literal of cdp-client.mjs line 755, whose mode field is
"Planning" — not "Unknown" as the claim states for a category with no
match. -/
theorem getModelAndMode_mode_default_cex :
    getModelAndMode [["irrelevant text"]] =
      { model := some "Unknown", mode := some "Planning" } ∧
    some "Planning" ≠ (some "Unknown" : Option String) :=
  ⟨by decide, by decide⟩

/-- C6 amended: inside one context the first trimmed text matching the
model pattern and the first matching the mode enum win per category; the
first context whose scan yields a model determines the result wholesale
(its mode may be null when only the model matched there); when no context
yields a model the result is model "Unknown" and mode "Planning" — the
mode field never defaults to "Unknown". -/
theorem getModelAndMode_amended :
    (∀ texts : List String,
        scanModelMode texts =
          ((texts.map strTrim).find? isModelText,
           (texts.map strTrim).find? isModeText)) ∧
    (∀ ctxs : List (List String),
        getModelAndMode ctxs =
          match ctxs.find? (fun c => (scanModelMode c).1.isSome) with
          | some c => { model := (scanModelMode c).1, mode := (scanModelMode c).2 }
          | none => { model := some "Unknown", mode := some "Planning" }) := by
  constructor
  · intro texts
    unfold scanModelMode
    rw [scanMMGo_eq]
  · intro ctxs
    induction ctxs with
    | nil => rfl
    | cons c rest ih =>
      simp only [getModelAndMode, gmmGo] at ih ⊢
      by_cases hc : (scanModelMode c).1.isSome
      · rw [List.find?_cons_of_pos _ (by simpa using hc), if_pos hc]
      · rw [List.find?_cons_of_neg _ (by simpa using hc), if_neg hc, ih]
